import Mathlib

/-!
Verification of the spring-mass simulator core (`src/main.py`, class
`SpringMassSystem`).  Real-valued quantities are embedded as rationals
(`ℚ`), except the spring-coil geometry which uses `ℝ` because it involves
the sine function.  The mutable object is embedded as a record
`SpringMassSystem`; each method becomes a function from states to states.
-/

namespace SpringMass

/-- `max_points = 500`, the `maxlen` of the two deques (`main.py` line 14). -/
def max_points : Nat := 500

/-- `default_x_pos = 2.0` (`main.py` line 13). -/
def default_x_pos : ℚ := 2

/-- The mutable state of `SpringMassSystem`: physical parameters
(`mass`, `resilience`, `damping`), integration data (`current_time`,
`dt`, `time_modifier`, `x_position`, `velocity`), the two history deques
(`time_data`, `velocity_data`, modelled as lists with the newest element
last) and the recording flag `velocity_plot_active`
(`main.py` lines 17-33). -/
structure SpringMassSystem where
  mass : ℚ
  resilience : ℚ
  damping : ℚ
  current_time : ℚ
  dt : ℚ
  time_modifier : ℚ
  x_position : ℚ
  velocity : ℚ
  time_data : List ℚ
  velocity_data : List ℚ
  velocity_plot_active : Bool
  deriving DecidableEq

/-- Appending to a `collections.deque` with `maxlen = n`: when the deque is
full the oldest (leftmost) element is evicted first. -/
def dequeAppend (n : Nat) (l : List ℚ) (x : ℚ) : List ℚ :=
  if l.length < n then l ++ [x] else l.tail ++ [x]

/-- A `SpringMassSystem` with the given parameters and the default initial
physical state set by `__init__` (`main.py` lines 17-31):
`current_time = 0`, `dt = 0.02`, `x_position = default_x_pos = 2.0`,
`velocity = 0`, empty deques, recording active. -/
def init0 (m k c τ : ℚ) : SpringMassSystem :=
  { mass := m
    resilience := k
    damping := c
    current_time := 0
    dt := 1/50
    time_modifier := τ
    x_position := default_x_pos
    velocity := 0
    time_data := []
    velocity_data := []
    velocity_plot_active := true }

/-- The state built by `__init__`: `mass = 1.0`, `resilience = 10.0`,
`damping = 0.5`, `time_modifier = 1.0` (`main.py` lines 18-24). -/
def init : SpringMassSystem := init0 1 10 (1/2) 1

/-- One animation tick, `SpringMassSystem.update` (`main.py` lines 189-216):
compute the acceleration from the pre-update position and velocity, perform
the explicit Euler step (velocity first, then position with the updated
velocity, then time), then, if recording is active, either append
`(current_time, velocity)` to the deques (when `current_time <= 10`) or
switch the recording flag off. -/
def update (s : SpringMassSystem) : SpringMassSystem :=
  let acceleration := (-s.resilience * s.x_position - s.damping * s.velocity) / s.mass
  let effective_dt := s.dt * s.time_modifier
  let velocity' := s.velocity + acceleration * effective_dt
  let x_position' := s.x_position + velocity' * effective_dt
  let current_time' := s.current_time + effective_dt
  let s' : SpringMassSystem :=
    { s with velocity := velocity', x_position := x_position',
             current_time := current_time' }
  if s.velocity_plot_active then
    if current_time' ≤ 10 then
      { s' with time_data := dequeAppend max_points s.time_data current_time',
                velocity_data := dequeAppend max_points s.velocity_data velocity' }
    else
      { s' with velocity_plot_active := false }
  else
    s'

/-- `SpringMassSystem.reset` (`main.py` lines 177-187): restore the default
position, zero velocity and time, clear both deques, re-enable recording.
All other fields (the plot objects aside, which are not part of the model)
are untouched. -/
def reset (s : SpringMassSystem) : SpringMassSystem :=
  { s with x_position := default_x_pos
           velocity := 0
           current_time := 0
           time_data := []
           velocity_data := []
           velocity_plot_active := true }

/-- `SpringMassSystem.update_mass` (`main.py` lines 165-166): store the
value, no validation. -/
def update_mass (s : SpringMassSystem) (value : ℚ) : SpringMassSystem :=
  { s with mass := value }

/-- `SpringMassSystem.update_resilience` (`main.py` lines 168-169). -/
def update_resilience (s : SpringMassSystem) (value : ℚ) : SpringMassSystem :=
  { s with resilience := value }

/-- `SpringMassSystem.update_damping` (`main.py` lines 171-172). -/
def update_damping (s : SpringMassSystem) (value : ℚ) : SpringMassSystem :=
  { s with damping := value }

/-- `SpringMassSystem.update_time_modifier` (`main.py` lines 174-175). -/
def update_time_modifier (s : SpringMassSystem) (value : ℚ) : SpringMassSystem :=
  { s with time_modifier := value }

/-- Python `min` over a nonempty list (`min(distances)`); `0` on the empty
list, a case the source never reaches. -/
def listMin : List ℚ → ℚ
  | [] => 0
  | [a] => a
  | a :: b :: rest => min a (listMin (b :: rest))

/-- Python `list.index(v)`: index of the first occurrence of `v`
(length of the list if absent, a case the source never reaches). -/
def index_of_val (v : ℚ) : List ℚ → Nat
  | [] => 0
  | a :: rest => if a = v then 0 else index_of_val v rest + 1

/-- The nearest-sample lookup inside `SpringMassSystem.on_mouse_move`
(`main.py` lines 124-149): with the cursor inside the velocity plot, take
`line_x = list(time_data)`, `line_y = list(velocity_data)`; if either is
empty no sample is shown (`none`); otherwise compute all distances
`abs(x_point - x)`, take the index of the first minimum
(`distances.index(min(distances))`) and display
`(line_x[idx], line_y[idx])`.  Out-of-range indexing is modelled with
default `0`; it never occurs because the index is a valid index of
`line_x` and both deques always have equal length. -/
def on_mouse_move_nearest (time_data velocity_data : List ℚ) (x : ℚ) :
    Option (ℚ × ℚ) :=
  if time_data = [] ∨ velocity_data = [] then none
  else
    let distances := time_data.map (fun x_point => |x_point - x|)
    let nearest_idx := index_of_val (listMin distances) distances
    some (time_data.getD nearest_idx 0, velocity_data.getD nearest_idx 0)

/-- `SpringMassSystem.create_spring` (`main.py` lines 155-163):
`t = np.linspace(0, 1, 100)` (so `t i = i / 99`), `spring_x = t * x`,
`spring_y = 0.2 * sin(2 * π * 6 * t)`, returned as the pair of coordinate
lists. -/
noncomputable def create_spring (x : ℝ) : List ℝ × List ℝ :=
  let num_coils : ℝ := 6
  let coil_radius : ℝ := 0.2
  let t : List ℝ := List.ofFn (fun i : Fin 100 => (i : ℝ) / 99)
  (t.map (fun ti => ti * x),
   t.map (fun ti => coil_radius * Real.sin (2 * Real.pi * num_coils * ti)))

/-! ### Field characterisation of one tick -/

/-- Every branch of `update` performs the same Euler step on the velocity. -/
theorem update_velocity_eq (s : SpringMassSystem) :
    (update s).velocity =
      s.velocity +
        ((-s.resilience * s.x_position - s.damping * s.velocity) / s.mass) *
          (s.dt * s.time_modifier) := by
  simp only [update]
  split
  · split <;> rfl
  · rfl

/-- Every branch of `update` performs the same Euler step on the position,
using the already-updated velocity. -/
theorem update_x_position_eq (s : SpringMassSystem) :
    (update s).x_position =
      s.x_position + (update s).velocity * (s.dt * s.time_modifier) := by
  simp only [update]
  split
  · split <;> rfl
  · rfl

/-- Every branch of `update` advances `current_time` by `dt * time_modifier`. -/
theorem update_current_time_eq (s : SpringMassSystem) :
    (update s).current_time = s.current_time + s.dt * s.time_modifier := by
  simp only [update]
  split
  · split <;> rfl
  · rfl

/-- `update` never changes the parameters `mass, resilience, damping`,
the step size `dt` or the speed multiplier `time_modifier`. -/
theorem update_params_eq (s : SpringMassSystem) :
    (update s).mass = s.mass ∧ (update s).resilience = s.resilience ∧
    (update s).damping = s.damping ∧ (update s).dt = s.dt ∧
    (update s).time_modifier = s.time_modifier := by
  simp only [update]
  split
  · split <;> exact ⟨rfl, rfl, rfl, rfl, rfl⟩
  · exact ⟨rfl, rfl, rfl, rfl, rfl⟩

/-- When recording is off, a tick leaves both deques untouched and the flag
stays off. -/
theorem update_frozen (s : SpringMassSystem)
    (h : s.velocity_plot_active = false) :
    (update s).time_data = s.time_data ∧
    (update s).velocity_data = s.velocity_data ∧
    (update s).velocity_plot_active = false := by
  simp only [update]
  simp [h]

/-- When recording is on and the new time is within the horizon, a tick
appends the new sample to both deques and recording stays on. -/
theorem update_recording (s : SpringMassSystem)
    (h : s.velocity_plot_active = true)
    (h10 : s.current_time + s.dt * s.time_modifier ≤ 10) :
    (update s).time_data =
      dequeAppend max_points s.time_data (s.current_time + s.dt * s.time_modifier) ∧
    (update s).velocity_data =
      dequeAppend max_points s.velocity_data ((update s).velocity) ∧
    (update s).velocity_plot_active = true := by
  rw [update_velocity_eq]
  simp only [update]
  simp [h, h10]

/-- When recording is on and the new time exceeds the horizon, a tick turns
recording off and leaves both deques untouched. -/
theorem update_freeze_step (s : SpringMassSystem)
    (h : s.velocity_plot_active = true)
    (h10 : ¬ s.current_time + s.dt * s.time_modifier ≤ 10) :
    (update s).time_data = s.time_data ∧
    (update s).velocity_data = s.velocity_data ∧
    (update s).velocity_plot_active = false := by
  simp only [update]
  simp [h, h10]

/-- The recording flag after a tick: on iff it was on and the post-step time
is still within the horizon. -/
theorem update_active_iff (s : SpringMassSystem) :
    (update s).velocity_plot_active = true ↔
      (s.velocity_plot_active = true ∧ (update s).current_time ≤ 10) := by
  rw [update_current_time_eq]
  simp only [update]
  split
  · split <;> simp_all
  · simp_all

/-! ### Deque lemmas -/

/-- The deque bound is positive. -/
theorem max_points_pos : 0 < max_points := by norm_num [max_points]

/-- Length after a bounded append. -/
theorem dequeAppend_length {n : Nat} (hn : 0 < n) (l : List ℚ) (x : ℚ)
    (h : l.length ≤ n) :
    (dequeAppend n l x).length = min (l.length + 1) n := by
  unfold dequeAppend
  split
  · simp; omega
  · rename_i hge
    simp [List.length_tail]
    omega

/-- A bounded append never exceeds the bound. -/
theorem dequeAppend_length_le {n : Nat} (hn : 0 < n) (l : List ℚ) (x : ℚ)
    (h : l.length ≤ n) :
    (dequeAppend n l x).length ≤ n := by
  rw [dequeAppend_length hn l x h]
  exact min_le_right _ _

/-- Elements after a bounded append were already present or are the new one. -/
theorem mem_dequeAppend {n : Nat} {l : List ℚ} {x a : ℚ}
    (h : a ∈ dequeAppend n l x) : a ∈ l ∨ a = x := by
  unfold dequeAppend at h
  split at h
  · simpa using h
  · rcases List.mem_append.1 h with h1 | h1
    · exact Or.inl (List.tail_subset l h1)
    · simp at h1
      exact Or.inr h1

/-- Appending an element strictly above every current element keeps the list
strictly increasing. -/
theorem chain_append_lt {l : List ℚ} {x : ℚ} (hl : l.Chain' (· < ·))
    (hx : ∀ a ∈ l, a < x) : (l ++ [x]).Chain' (· < ·) := by
  refine List.Chain'.append hl (List.chain'_singleton x) ?_
  intro a ha y hy
  simp at hy
  subst hy
  obtain ⟨hne, rfl⟩ := List.mem_getLast?_eq_getLast ha
  exact hx _ (List.getLast_mem hne)

/-- A bounded append of an element strictly above every current element keeps
the deque strictly increasing. -/
theorem dequeAppend_chain {n : Nat} {l : List ℚ} {x : ℚ} (hl : l.Chain' (· < ·))
    (hx : ∀ a ∈ l, a < x) :
    (dequeAppend n l x).Chain' (· < ·) := by
  unfold dequeAppend
  split
  · exact chain_append_lt hl hx
  · exact chain_append_lt hl.tail (fun a ha => hx a (List.tail_subset l ha))

/-- Folding bounded appends over any sequence of values keeps exactly the
most recent `max_points` of the accumulated values: the FIFO sliding
window. -/
theorem foldl_dequeAppend {n : Nat} (hn : 0 < n) (xs : List ℚ) :
    ∀ acc : List ℚ, acc.length ≤ n →
      List.foldl (dequeAppend n) acc xs =
        (acc ++ xs).drop ((acc ++ xs).length - n) := by
  induction xs with
  | nil =>
      intro acc h
      simp [Nat.sub_eq_zero_of_le h]
  | cons x xs ih =>
      intro acc h
      rw [List.foldl_cons, ih _ (dequeAppend_length_le hn acc x h)]
      unfold dequeAppend
      split
      · simp
      · rename_i hge
        cases acc with
        | nil => exact absurd hn hge
        | cons a t =>
            have h1 : t.length + 1 = n := by
              simp at hge h
              omega
            have e1 : ((a :: t).tail ++ [x]) ++ xs = t ++ x :: xs := by simp
            have e2 : (a :: t) ++ x :: xs = a :: (t ++ x :: xs) := rfl
            rw [e1, e2]
            have l1 : (t ++ x :: xs).length - n = xs.length := by
              simp
              omega
            have l2 : (a :: (t ++ x :: xs)).length - n = xs.length + 1 := by
              simp
              omega
            rw [l1, l2, List.drop_succ_cons]

/-! ### Reachable states and their invariant -/

/-- The collection of invariants maintained by every reachable state:
the step size stays `0.02`, the speed multiplier stays in the slider range
(so in particular positive), both deques stay within `max_points` and of
equal length, the recorded times are strictly increasing, and every
recorded time is at most the current time. -/
def Inv (s : SpringMassSystem) : Prop :=
  s.dt = 1/50 ∧
  1/10 ≤ s.time_modifier ∧
  s.time_data.length ≤ max_points ∧
  s.time_data.length = s.velocity_data.length ∧
  s.time_data.Chain' (· < ·) ∧
  ∀ t ∈ s.time_data, t ≤ s.current_time

/-- Reachability of a state through the program's event handlers: the state
built by `__init__`, animation ticks (`update`), the reset button
(`reset`), and the four sliders, whose values are confined to the
`valmin`/`valmax` ranges declared in `setup_sliders`
(`main.py` lines 79-122): speed in `[0.1, 2]`, mass in `[0.1, 5]`,
resilience in `[1, 30]`, damping in `[0, 2]`. -/
inductive Reachable : SpringMassSystem → Prop
  | init : Reachable init
  | tick {s} : Reachable s → Reachable (update s)
  | press_reset {s} : Reachable s → Reachable (reset s)
  | slide_mass {s v} : Reachable s → 1/10 ≤ v → v ≤ 5 →
      Reachable (update_mass s v)
  | slide_resilience {s v} : Reachable s → 1 ≤ v → v ≤ 30 →
      Reachable (update_resilience s v)
  | slide_damping {s v} : Reachable s → 0 ≤ v → v ≤ 2 →
      Reachable (update_damping s v)
  | slide_time {s v} : Reachable s → 1/10 ≤ v → v ≤ 2 →
      Reachable (update_time_modifier s v)

/-- A tick preserves the invariant. -/
theorem inv_update {s : SpringMassSystem} (h : Inv s) : Inv (update s) := by
  obtain ⟨hdt, htm, hlen, hleneq, hchain, hle⟩ := h
  have hparams := update_params_eq s
  have hct := update_current_time_eq s
  have hpos : 0 < s.dt * s.time_modifier := by
    rw [hdt]
    have : (0:ℚ) < 1/10 := by norm_num
    positivity
  have hctlt : s.current_time < s.current_time + s.dt * s.time_modifier := by
    linarith
  by_cases ha : s.velocity_plot_active = true
  · by_cases h10 : s.current_time + s.dt * s.time_modifier ≤ 10
    · obtain ⟨ht, hv, _⟩ := update_recording s ha h10
      refine ⟨hparams.2.2.2.1.trans hdt, hparams.2.2.2.2 ▸ htm, ?_, ?_, ?_, ?_⟩
      · rw [ht]
        exact dequeAppend_length_le max_points_pos _ _ hlen
      · rw [ht, hv, dequeAppend_length max_points_pos _ _ hlen,
            dequeAppend_length max_points_pos _ _ (hleneq ▸ hlen), hleneq]
      · rw [ht]
        exact dequeAppend_chain hchain
          (fun a ha' => lt_of_le_of_lt (hle a ha') hctlt)
      · intro t htd
        rw [ht] at htd
        rw [hct]
        rcases mem_dequeAppend htd with h1 | h1
        · exact le_of_lt (lt_of_le_of_lt (hle t h1) hctlt)
        · exact le_of_eq h1
    · obtain ⟨ht, hv, _⟩ := update_freeze_step s ha h10
      refine ⟨hparams.2.2.2.1.trans hdt, hparams.2.2.2.2 ▸ htm, ?_, ?_, ?_, ?_⟩
      · rw [ht]; exact hlen
      · rw [ht, hv]; exact hleneq
      · rw [ht]; exact hchain
      · intro t htd
        rw [ht] at htd
        rw [hct]
        exact le_of_lt (lt_of_le_of_lt (hle t htd) hctlt)
  · obtain ⟨ht, hv, _⟩ := update_frozen s (by simpa using ha)
    refine ⟨hparams.2.2.2.1.trans hdt, hparams.2.2.2.2 ▸ htm, ?_, ?_, ?_, ?_⟩
    · rw [ht]; exact hlen
    · rw [ht, hv]; exact hleneq
    · rw [ht]; exact hchain
    · intro t htd
      rw [ht] at htd
      rw [hct]
      exact le_of_lt (lt_of_le_of_lt (hle t htd) hctlt)

/-- Every reachable state satisfies the invariant. -/
theorem inv_of_reachable {s : SpringMassSystem} (h : Reachable s) : Inv s := by
  induction h with
  | init =>
      refine ⟨rfl, by norm_num [init, init0], ?_, rfl, ?_, ?_⟩ <;>
        simp [init, init0, max_points]
  | tick _ ih => exact inv_update ih
  | press_reset _ ih =>
      obtain ⟨hdt, htm, _, _, _, _⟩ := ih
      exact ⟨hdt, htm, by simp [reset, max_points], rfl, by simp [reset],
        by simp [reset]⟩
  | slide_mass _ h1 h2 ih => exact ih
  | slide_resilience _ h1 h2 ih => exact ih
  | slide_damping _ h1 h2 ih => exact ih
  | slide_time _ h1 h2 ih =>
      obtain ⟨hdt, htm, ha, hb, hc, hd⟩ := ih
      exact ⟨hdt, h1, ha, hb, hc, hd⟩

/-- A concrete state whose recording flag is off, used to instantiate the
frozen-state theorems. -/
def frozenExample : SpringMassSystem := { init with velocity_plot_active := false }

/-! ### Claims -/

/-- C1: one tick computes
`acceleration = (-stiffness * position - damping * velocity) / mass` from the
pre-update position and velocity, sets `effectiveDt = fixedDt * timeScale`,
then updates velocity, then position (with the already-updated velocity),
then elapsed time, in that order, for every state with `mass ≠ 0`. -/
theorem C1_tick_euler_order (s : SpringMassSystem) (hm : s.mass ≠ 0) :
    (update s).velocity =
      s.velocity +
        ((-s.resilience * s.x_position - s.damping * s.velocity) / s.mass) *
          (s.dt * s.time_modifier) ∧
    (update s).x_position =
      s.x_position + (update s).velocity * (s.dt * s.time_modifier) ∧
    (update s).current_time = s.current_time + s.dt * s.time_modifier :=
  ⟨update_velocity_eq s, update_x_position_eq s, update_current_time_eq s⟩

/-- Witness for C1 at the initial state (`mass = 1 ≠ 0`). -/
theorem C1_tick_euler_order_witness :
    init.mass ≠ 0 ∧
    ((update init).velocity =
        init.velocity +
          ((-init.resilience * init.x_position - init.damping * init.velocity) /
              init.mass) * (init.dt * init.time_modifier) ∧
      (update init).x_position =
        init.x_position + (update init).velocity * (init.dt * init.time_modifier) ∧
      (update init).current_time = init.current_time + init.dt * init.time_modifier) :=
  ⟨by decide, C1_tick_euler_order init (by decide)⟩

/-- C2: the recording flag is a two-state machine: it starts on, a tick
leaves it on exactly when it was on and the post-step time is within the
horizon (so it switches off exactly once, on the first tick whose post-step
time exceeds 10), it returns on only via `reset`, and while it is off no
tick alters the history deques. -/
theorem C2_recording_state_machine (s : SpringMassSystem) :
    ((update s).velocity_plot_active = true ↔
      (s.velocity_plot_active = true ∧ (update s).current_time ≤ 10)) ∧
    (s.velocity_plot_active = false →
      (update s).time_data = s.time_data ∧
      (update s).velocity_data = s.velocity_data ∧
      (update s).velocity_plot_active = false) ∧
    (reset s).velocity_plot_active = true ∧
    init.velocity_plot_active = true :=
  ⟨update_active_iff s, update_frozen s, rfl, rfl⟩

/-- Witness for C2 at a concrete frozen state. -/
theorem C2_recording_state_machine_witness :
    (update frozenExample).time_data = frozenExample.time_data ∧
    (update frozenExample).velocity_data = frozenExample.velocity_data ∧
    (update frozenExample).velocity_plot_active = false ∧
    (reset frozenExample).velocity_plot_active = true :=
  ⟨((C2_recording_state_machine frozenExample).2.1 rfl).1,
   ((C2_recording_state_machine frozenExample).2.1 rfl).2.1,
   ((C2_recording_state_machine frozenExample).2.1 rfl).2.2,
   (C2_recording_state_machine frozenExample).2.2.1⟩

/-- C4: `reset` restores `position = 2.0`, `velocity = 0`,
`elapsedTime = 0`, empties both history deques and re-enables recording,
while leaving `mass`, `resilience`, `damping` and `time_modifier`
unchanged, from every state. -/
theorem C4_reset_effect (s : SpringMassSystem) :
    (reset s).x_position = 2 ∧ (reset s).velocity = 0 ∧
    (reset s).current_time = 0 ∧ (reset s).time_data = [] ∧
    (reset s).velocity_data = [] ∧ (reset s).velocity_plot_active = true ∧
    (reset s).mass = s.mass ∧ (reset s).resilience = s.resilience ∧
    (reset s).damping = s.damping ∧ (reset s).time_modifier = s.time_modifier :=
  ⟨rfl, rfl, rfl, rfl, rfl, rfl, rfl, rfl, rfl, rfl⟩

/-- C8 counterexample: `update_mass` called with the invalid value `-1`
(violating `mass > 0`) stores it: the new mass is `-1`, not the previous
value `1`, and no error path exists in the setter. -/
theorem C8_counterexample_setter_accepts_invalid :
    (update_mass init (-1)).mass = -1 ∧ init.mass = 1 ∧
    (update_mass init (-1)).mass ≠ init.mass :=
  ⟨rfl, rfl, by decide⟩

/-- C8 amended: the parameter setters perform no validation at all:
`update_mass` stores any given value (including values `≤ 0`) and changes
no other field; no error is raised and the previous value is not kept. -/
theorem C8_setter_stores_unconditionally (s : SpringMassSystem) (value : ℚ) :
    (update_mass s value).mass = value ∧
    (update_mass s value).resilience = s.resilience ∧
    (update_mass s value).damping = s.damping ∧
    (update_mass s value).time_modifier = s.time_modifier ∧
    (update_mass s value).x_position = s.x_position ∧
    (update_mass s value).velocity = s.velocity ∧
    (update_mass s value).current_time = s.current_time ∧
    (update_mass s value).time_data = s.time_data ∧
    (update_mass s value).velocity_data = s.velocity_data ∧
    (update_mass s value).velocity_plot_active = s.velocity_plot_active :=
  ⟨rfl, rfl, rfl, rfl, rfl, rfl, rfl, rfl, rfl, rfl⟩

/-- C9: once the recording flag is off, a tick still advances the physical
state (velocity, position and elapsed time follow the same Euler step)
while both history deques stay untouched. -/
theorem C9_frozen_physics_continues (s : SpringMassSystem)
    (h : s.velocity_plot_active = false) :
    (update s).time_data = s.time_data ∧
    (update s).velocity_data = s.velocity_data ∧
    (update s).current_time = s.current_time + s.dt * s.time_modifier ∧
    (update s).velocity =
      s.velocity +
        ((-s.resilience * s.x_position - s.damping * s.velocity) / s.mass) *
          (s.dt * s.time_modifier) ∧
    (update s).x_position =
      s.x_position + (update s).velocity * (s.dt * s.time_modifier) :=
  ⟨(update_frozen s h).1, (update_frozen s h).2.1, update_current_time_eq s,
   update_velocity_eq s, update_x_position_eq s⟩

/-- Witness for C9 at a concrete frozen state. -/
theorem C9_frozen_physics_continues_witness :
    (update frozenExample).time_data = frozenExample.time_data ∧
    (update frozenExample).velocity_data = frozenExample.velocity_data ∧
    (update frozenExample).current_time =
      frozenExample.current_time + frozenExample.dt * frozenExample.time_modifier ∧
    (update frozenExample).velocity =
      frozenExample.velocity +
        ((-frozenExample.resilience * frozenExample.x_position -
            frozenExample.damping * frozenExample.velocity) / frozenExample.mass) *
          (frozenExample.dt * frozenExample.time_modifier) ∧
    (update frozenExample).x_position =
      frozenExample.x_position +
        (update frozenExample).velocity *
          (frozenExample.dt * frozenExample.time_modifier) :=
  C9_frozen_physics_continues frozenExample rfl

/-- Iterated ticks never change the step size or the speed multiplier. -/
theorem iterate_update_params (s : SpringMassSystem) (n : ℕ) :
    (update^[n] s).dt = s.dt ∧ (update^[n] s).time_modifier = s.time_modifier := by
  induction n with
  | zero => exact ⟨rfl, rfl⟩
  | succ n ih =>
      rw [Function.iterate_succ_apply']
      exact ⟨(update_params_eq _).2.2.2.1.trans ih.1,
             (update_params_eq _).2.2.2.2.trans ih.2⟩

/-- C5: in every reachable state both history deques hold at most
`max_points` entries and the recorded times are strictly increasing;
and folding bounded appends over any value sequence (what the recording
ticks do) retains exactly the most recent `max_points` values, oldest
evicted first. -/
theorem C5_buffer_bounded_sorted_fifo :
    (∀ s : SpringMassSystem, Reachable s →
      s.time_data.length ≤ max_points ∧
      s.velocity_data.length ≤ max_points ∧
      s.time_data.Chain' (· < ·)) ∧
    (∀ xs : List ℚ, List.foldl (dequeAppend max_points) [] xs =
      xs.drop (xs.length - max_points)) := by
  constructor
  · intro s hs
    obtain ⟨_, _, hlen, hleneq, hchain, _⟩ := inv_of_reachable hs
    exact ⟨hlen, hleneq ▸ hlen, hchain⟩
  · intro xs
    simpa using foldl_dequeAppend max_points_pos xs [] (by simp)

/-- Witness for C5 at the initial state and a short value sequence. -/
theorem C5_buffer_bounded_sorted_fifo_witness :
    (init.time_data.length ≤ max_points ∧
     init.velocity_data.length ≤ max_points ∧
     init.time_data.Chain' (· < ·)) ∧
    List.foldl (dequeAppend max_points) [] [1, 2, 3] =
      [1, 2, 3].drop ([1, 2, 3].length - max_points) :=
  ⟨C5_buffer_bounded_sorted_fifo.1 init Reachable.init,
   C5_buffer_bounded_sorted_fifo.2 [1, 2, 3]⟩

/-- C6: for every parameter set with `mass > 0`, `stiffness > 0`,
`damping ≥ 0`, `timeScale > 0`, iterated ticks from the default initial
state produce a strictly increasing elapsed-time sequence whose
consecutive difference is exactly `fixedDt * timeScale = 0.02 * τ`. -/
theorem C6_elapsed_time_steps (m k c τ : ℚ)
    (hm : 0 < m) (hk : 0 < k) (hc : 0 ≤ c) (hτ : 0 < τ) (n : ℕ) :
    (update^[n + 1] (init0 m k c τ)).current_time =
      (update^[n] (init0 m k c τ)).current_time + 1/50 * τ ∧
    (update^[n] (init0 m k c τ)).current_time <
      (update^[n + 1] (init0 m k c τ)).current_time := by
  have hp := iterate_update_params (init0 m k c τ) n
  have h1 : (update^[n + 1] (init0 m k c τ)).current_time =
      (update^[n] (init0 m k c τ)).current_time + 1/50 * τ := by
    rw [Function.iterate_succ_apply', update_current_time_eq, hp.1, hp.2]
    norm_num [init0]
  refine ⟨h1, ?_⟩
  rw [h1]
  have h2 : 0 < 1/50 * τ := by positivity
  linarith

/-- Witness for C6 at `mass = 1`, `stiffness = 10`, `damping = 1/2`,
`timeScale = 1`, first step. -/
theorem C6_elapsed_time_steps_witness :
    (0:ℚ) < 1 ∧ (0:ℚ) < 10 ∧ (0:ℚ) ≤ 1/2 ∧ (0:ℚ) < 1 ∧
    ((update^[0 + 1] (init0 1 10 (1/2) 1)).current_time =
        (update^[0] (init0 1 10 (1/2) 1)).current_time + 1/50 * 1 ∧
      (update^[0] (init0 1 10 (1/2) 1)).current_time <
        (update^[0 + 1] (init0 1 10 (1/2) 1)).current_time) :=
  ⟨by norm_num, by norm_num, by norm_num, by norm_num,
   C6_elapsed_time_steps 1 10 (1/2) 1 (by norm_num) (by norm_num)
     (by norm_num) (by norm_num) 0⟩

/-- C10: in every reachable state the two history deques have equal
length; a recording tick appends one sample to each, and `reset` clears
both, so each recorded time is paired with exactly one recorded
velocity. -/
theorem C10_parallel_deques :
    (∀ s : SpringMassSystem, Reachable s →
      s.time_data.length = s.velocity_data.length) ∧
    (∀ s : SpringMassSystem, s.velocity_plot_active = true →
      s.current_time + s.dt * s.time_modifier ≤ 10 →
      (update s).time_data =
        dequeAppend max_points s.time_data
          (s.current_time + s.dt * s.time_modifier) ∧
      (update s).velocity_data =
        dequeAppend max_points s.velocity_data ((update s).velocity)) ∧
    (∀ s : SpringMassSystem,
      (reset s).time_data = [] ∧ (reset s).velocity_data = []) := by
  refine ⟨?_, ?_, ?_⟩
  · intro s hs
    exact (inv_of_reachable hs).2.2.2.1
  · intro s h1 h2
    exact ⟨(update_recording s h1 h2).1, (update_recording s h1 h2).2.1⟩
  · intro s
    exact ⟨rfl, rfl⟩

/-- Witness for C10 at the initial state. -/
theorem C10_parallel_deques_witness :
    init.time_data.length = init.velocity_data.length ∧
    ((update init).time_data =
      dequeAppend max_points init.time_data
        (init.current_time + init.dt * init.time_modifier) ∧
     (update init).velocity_data =
      dequeAppend max_points init.velocity_data ((update init).velocity)) ∧
    ((reset init).time_data = [] ∧ (reset init).velocity_data = []) :=
  ⟨C10_parallel_deques.1 init Reachable.init,
   C10_parallel_deques.2.1 init rfl (by norm_num [init, init0]),
   C10_parallel_deques.2.2 init⟩

/-! ### Nearest-sample lookup lemmas -/

/-- `listMin` of a nonempty list is one of its elements. -/
theorem listMin_mem : ∀ l : List ℚ, l ≠ [] → listMin l ∈ l
  | [], h => absurd rfl h
  | [a], _ => by simp [listMin]
  | a :: b :: rest, _ => by
      rcases le_total a (listMin (b :: rest)) with h | h
      · simp [listMin, min_eq_left h]
      · rw [show listMin (a :: b :: rest) = min a (listMin (b :: rest)) from rfl,
           min_eq_right h]
        exact List.mem_cons_of_mem a (listMin_mem (b :: rest) (by simp))

/-- `listMin` is a lower bound of the list. -/
theorem listMin_le : ∀ (l : List ℚ) (a : ℚ), a ∈ l → listMin l ≤ a
  | [], a, ha => absurd ha (List.not_mem_nil a)
  | [b], a, ha => by
      simp at ha
      subst ha
      simp [listMin]
  | b :: c :: rest, a, ha => by
      rw [show listMin (b :: c :: rest) = min b (listMin (c :: rest)) from rfl]
      rcases List.mem_cons.1 ha with rfl | h
      · exact min_le_left _ _
      · exact le_trans (min_le_right _ _) (listMin_le (c :: rest) a h)

/-- The index of the first occurrence of a present value is in range. -/
theorem index_of_val_lt {v : ℚ} :
    ∀ {l : List ℚ}, v ∈ l → index_of_val v l < l.length
  | [], h => absurd h (List.not_mem_nil v)
  | a :: rest, h => by
      rw [index_of_val]
      split
      · simp
      · rename_i hne
        have hv : v ∈ rest := by
          rcases List.mem_cons.1 h with rfl | h2
          · exact absurd rfl hne
          · exact h2
        simpa using Nat.succ_lt_succ (index_of_val_lt hv)

/-- Indexing at the first occurrence of a present value gives it back. -/
theorem index_of_val_getD {v : ℚ} :
    ∀ {l : List ℚ}, v ∈ l → l.getD (index_of_val v l) 0 = v
  | [], h => absurd h (List.not_mem_nil v)
  | a :: rest, h => by
      rw [index_of_val]
      split
      · rename_i he
        simpa using he
      · rename_i hne
        have hv : v ∈ rest := by
          rcases List.mem_cons.1 h with rfl | h2
          · exact absurd rfl hne
          · exact h2
        simpa using index_of_val_getD hv

/-- Before the first occurrence of a value, every element differs from it. -/
theorem getD_ne_of_lt_index {v : ℚ} :
    ∀ {l : List ℚ} {j : Nat}, j < index_of_val v l → l.getD j 0 ≠ v
  | [], j, hj => by
      rw [index_of_val] at hj
      omega
  | a :: rest, j, hj => by
      rw [index_of_val] at hj
      split at hj
      · omega
      · rename_i hne
        cases j with
        | zero => simpa using hne
        | succ j => simpa using getD_ne_of_lt_index (Nat.lt_of_succ_lt_succ hj)

/-- Defaulted indexing in range agrees through `Prod.fst` and `map`. -/
theorem getD_map_fst (hist : List (ℚ × ℚ)) (j : Nat) (hj : j < hist.length) :
    (hist.map Prod.fst).getD j 0 = (hist.getD j (0, 0)).1 := by
  rw [List.getD_eq_getElem _ _ (by simpa using hj),
      List.getD_eq_getElem _ _ hj, List.getElem_map]

/-- Defaulted indexing in range agrees through `Prod.snd` and `map`. -/
theorem getD_map_snd (hist : List (ℚ × ℚ)) (j : Nat) (hj : j < hist.length) :
    (hist.map Prod.snd).getD j 0 = (hist.getD j (0, 0)).2 := by
  rw [List.getD_eq_getElem _ _ (by simpa using hj),
      List.getD_eq_getElem _ _ hj, List.getElem_map]

/-- Defaulted indexing in range commutes with the distance map. -/
theorem getD_map_abs (tl : List ℚ) (q : ℚ) (j : Nat) (hj : j < tl.length) :
    (tl.map (fun x_point => |x_point - q|)).getD j 0 = |tl.getD j 0 - q| := by
  rw [List.getD_eq_getElem _ _ (by simpa using hj),
      List.getD_eq_getElem _ _ hj, List.getElem_map]

/-- A defaulted lookup in range is a member. -/
theorem getD_self_mem (l : List ℚ) (j : Nat) (hj : j < l.length) :
    l.getD j 0 ∈ l := by
  rw [List.getD_eq_getElem _ _ hj]
  exact List.getElem_mem _

/-- The nearest-sample lookup on nonempty parallel lists returns the pair at
the first index whose time minimises the distance to the query. -/
theorem nearest_core (tl vl : List ℚ) (q : ℚ) (h1 : tl ≠ []) (h2 : vl ≠ []) :
    ∃ i, i < tl.length ∧
      on_mouse_move_nearest tl vl q = some (tl.getD i 0, vl.getD i 0) ∧
      (∀ j, j < tl.length → |tl.getD i 0 - q| ≤ |tl.getD j 0 - q|) ∧
      (∀ j, j < i → |tl.getD i 0 - q| < |tl.getD j 0 - q|) := by
  have hd_len : (tl.map fun x_point => |x_point - q|).length = tl.length :=
    List.length_map _ _
  have hd_ne : tl.map (fun x_point => |x_point - q|) ≠ [] := by
    simpa using h1
  have hmem := listMin_mem _ hd_ne
  have hi_lt : index_of_val (listMin (tl.map fun x_point => |x_point - q|))
      (tl.map fun x_point => |x_point - q|) < tl.length :=
    hd_len ▸ index_of_val_lt hmem
  refine ⟨index_of_val (listMin (tl.map fun x_point => |x_point - q|))
      (tl.map fun x_point => |x_point - q|), hi_lt, ?_, ?_, ?_⟩
  · rw [on_mouse_move_nearest, if_neg (not_or.2 ⟨h1, h2⟩)]
  · intro j hj
    rw [← getD_map_abs tl q _ hi_lt, ← getD_map_abs tl q j hj,
        index_of_val_getD hmem]
    exact listMin_le _ _ (getD_self_mem _ _ (by simpa using hj))
  · intro j hj
    have hj_lt : j < tl.length := lt_trans hj hi_lt
    rw [← getD_map_abs tl q _ hi_lt, ← getD_map_abs tl q j hj_lt,
        index_of_val_getD hmem]
    exact lt_of_le_of_ne
      (listMin_le _ _ (getD_self_mem _ _ (by simpa using hj_lt)))
      (Ne.symm (getD_ne_of_lt_index hj))

/-- C3: the nearest-sample lookup returns `none` on an empty history;
on a nonempty history it returns the entry whose time minimises the
distance to the query, the earliest such entry in case of ties; on history
`[(0,0),(1,5),(2,-5)]` it returns `(1,5)` for query `1.4` and `(2,-5)` for
query `1.6`. -/
theorem C3_nearest_sample :
    (∀ q : ℚ, on_mouse_move_nearest [] [] q = none) ∧
    (∀ (hist : List (ℚ × ℚ)) (q : ℚ), hist ≠ [] →
      ∃ i, i < hist.length ∧
        on_mouse_move_nearest (hist.map Prod.fst) (hist.map Prod.snd) q =
          some (hist.getD i (0, 0)) ∧
        (∀ j, j < hist.length →
          |(hist.getD i (0, 0)).1 - q| ≤ |(hist.getD j (0, 0)).1 - q|) ∧
        (∀ j, j < i →
          |(hist.getD i (0, 0)).1 - q| < |(hist.getD j (0, 0)).1 - q|)) ∧
    on_mouse_move_nearest [0, 1, 2] [0, 5, -5] (14/10) = some (1, 5) ∧
    on_mouse_move_nearest [0, 1, 2] [0, 5, -5] (16/10) = some (2, -5) := by
  refine ⟨fun q => rfl, ?_, ?_, ?_⟩
  · intro hist q hne
    obtain ⟨i, hi, heq, hmin, hstrict⟩ :=
      nearest_core (hist.map Prod.fst) (hist.map Prod.snd) q
        (by simpa using hne) (by simpa using hne)
    have hi' : i < hist.length := by simpa using hi
    refine ⟨i, hi', ?_, ?_, ?_⟩
    · rw [heq, getD_map_fst hist i hi', getD_map_snd hist i hi']
    · intro j hj
      have h := hmin j (by simpa using hj)
      rwa [getD_map_fst hist i hi', getD_map_fst hist j hj] at h
    · intro j hj
      have hj' : j < hist.length := lt_trans hj hi'
      have h := hstrict j hj
      rwa [getD_map_fst hist i hi', getD_map_fst hist j hj'] at h
  · norm_num [on_mouse_move_nearest, listMin, index_of_val, abs, max_def,
      min_def]
    simp
  · norm_num [on_mouse_move_nearest, listMin, index_of_val, abs, max_def,
      min_def]
    simp

/-- Witness for C3 on the three-sample history from the spec. -/
theorem C3_nearest_sample_witness :
    [((0 : ℚ), (0 : ℚ)), (1, 5), (2, -5)] ≠ [] ∧
    ∃ i, i < [((0 : ℚ), (0 : ℚ)), (1, 5), (2, -5)].length ∧
      on_mouse_move_nearest
          ([((0 : ℚ), (0 : ℚ)), (1, 5), (2, -5)].map Prod.fst)
          ([((0 : ℚ), (0 : ℚ)), (1, 5), (2, -5)].map Prod.snd) (14/10) =
        some ([((0 : ℚ), (0 : ℚ)), (1, 5), (2, -5)].getD i (0, 0)) ∧
      (∀ j, j < [((0 : ℚ), (0 : ℚ)), (1, 5), (2, -5)].length →
        |([((0 : ℚ), (0 : ℚ)), (1, 5), (2, -5)].getD i (0, 0)).1 - 14/10| ≤
          |([((0 : ℚ), (0 : ℚ)), (1, 5), (2, -5)].getD j (0, 0)).1 - 14/10|) ∧
      (∀ j, j < i →
        |([((0 : ℚ), (0 : ℚ)), (1, 5), (2, -5)].getD i (0, 0)).1 - 14/10| <
          |([((0 : ℚ), (0 : ℚ)), (1, 5), (2, -5)].getD j (0, 0)).1 - 14/10|) :=
  ⟨by simp,
   C3_nearest_sample.2.1 [((0 : ℚ), (0 : ℚ)), (1, 5), (2, -5)] (14/10) (by simp)⟩

/-- C7: `create_spring` returns 100 points sampled uniformly for
`t = i / 99`, with `x(t) = t * position` and
`y(t) = 0.2 * sin(2 * π * 6 * t)`; for `position = 0` every abscissa is `0`,
and every ordinate lies within `[-0.2, 0.2]`. -/
theorem C7_spring_geometry (x : ℝ) (i : Fin 100) :
    (create_spring x).1.length = 100 ∧
    (create_spring x).2.length = 100 ∧
    (create_spring x).1.getD i 0 = (i : ℝ) / 99 * x ∧
    (create_spring x).2.getD i 0 =
      0.2 * Real.sin (2 * Real.pi * 6 * ((i : ℝ) / 99)) ∧
    (create_spring 0).1.getD i 0 = 0 ∧
    -0.2 ≤ (create_spring x).2.getD i 0 ∧ (create_spring x).2.getD i 0 ≤ 0.2 := by
  have hlen1 : ∀ y : ℝ, (create_spring y).1.length = 100 := by
    intro y
    simp only [create_spring, List.length_map, List.length_ofFn]
  have hlen2 : ∀ y : ℝ, (create_spring y).2.length = 100 := by
    intro y
    simp only [create_spring, List.length_map, List.length_ofFn]
  have hx : ∀ y : ℝ, (create_spring y).1.getD i 0 = (i : ℝ) / 99 * y := by
    intro y
    rw [List.getD_eq_getElem _ _ (by rw [hlen1 y]; exact i.isLt)]
    simp only [create_spring, List.getElem_map, List.getElem_ofFn]
  have hy : (create_spring x).2.getD i 0 =
      0.2 * Real.sin (2 * Real.pi * 6 * ((i : ℝ) / 99)) := by
    rw [List.getD_eq_getElem _ _ (by rw [hlen2 x]; exact i.isLt)]
    simp only [create_spring, List.getElem_map, List.getElem_ofFn]
  refine ⟨hlen1 x, hlen2 x, hx x, hy, ?_, ?_, ?_⟩
  · rw [hx 0]
    ring
  · rw [hy]
    have h1 := Real.neg_one_le_sin (2 * Real.pi * 6 * ((i : ℝ) / 99))
    nlinarith
  · rw [hy]
    have h1 := Real.sin_le_one (2 * Real.pi * 6 * ((i : ℝ) / 99))
    nlinarith

end SpringMass
